import Mathlib

/-!
Verification of the chatbox context-caching and prompt-assembly subsystem.

The definitions below are a shallow embedding of the TypeScript source:
* the Anthropic cache-breakpoint planner (`withCache`, `injectCacheControl`
  from the anthropic-cache middleware file);
* the token accounting cache (`computePreviewMetadata` from
  `sessionHelpers.ts`);
* the content ingestion pipeline (`preprocessFile` and its parser backends
  from `sessionHelpers.ts`), with the storage collaborator made explicit as
  a `World` value threaded through the functions, and the collaborators not
  present in the repository sources (tokenizer, key generator, platform
  parser backends, text-extension test) abstracted as an `Env` of oracles;
* the session search engine (`_searchSessions`, `searchSessions` from
  `sessionHelpers.ts`), with callback emissions modelled as the returned
  list of emitted batches.

JavaScript records (`Record<string, T>`) are modelled as association lists
with the spread/assignment semantics of `{...o, k: v}` (`recordSet`), and
JSON values to the depth the code manipulates them (the code never inspects
stored values except the `cacheControl` entry, so one object level under a
provider record suffices).
-/

namespace Chatbox

/-- Roles of `LanguageModelV3Message`. -/
inductive Role
  | system
  | user
  | assistant
  | tool
deriving DecidableEq, Repr

/-- JSON leaf values stored inside provider option records. -/
inductive JsonLeaf
  | str (s : String)
  | num (n : Int)
  | boolean (b : Bool)
  | null
deriving DecidableEq, Repr

/-- A JSON value as stored under a provider record key: either a leaf or a
one-level object.  The planner code copies these values opaquely and only
ever writes the object `{ type: 'ephemeral' }` under `cacheControl`. -/
inductive JsonValue
  | leaf (l : JsonLeaf)
  | obj (fields : List (String × JsonLeaf))
deriving DecidableEq, Repr

/-- `{...r, k: v}` / `r[k] = v` on a JavaScript record: if the key is
present its value is replaced in place, otherwise the pair is appended. -/
def recordSet {α : Type} (r : List (String × α)) (k : String) (v : α) :
    List (String × α) :=
  if r.any (fun p => p.1 = k) then
    r.map (fun p => if p.1 = k then (k, v) else p)
  else r ++ [(k, v)]

/-- Key lookup on a JavaScript record (`r[k]`, `undefined` ↦ `none`). -/
def recordGet {α : Type} (r : List (String × α)) (k : String) : Option α :=
  (r.find? (fun p => p.1 = k)).map (fun p => p.2)

/-- A provider record, e.g. the value of `providerOptions.anthropic`. -/
abbrev ProviderRecord := List (String × JsonValue)

/-- `providerOptions`: a record of provider records
(`SharedV3ProviderOptions = Record<string, Record<string, JSONValue>>`). -/
abbrev ProviderOptions := List (String × ProviderRecord)

/-- A `LanguageModelV3Message`: role, an opaque content payload, and the
optional provider options record. -/
structure Message where
  role : Role
  content : String
  providerOptions : Option ProviderOptions
deriving DecidableEq, Repr

/-- `const CACHE_CONTROL = { type: 'ephemeral' as const }`. -/
def CACHE_CONTROL : JsonValue := .obj [("type", .str "ephemeral")]

/-- `withCache` from the anthropic-cache middleware: spread-copies the
message, the provider options, and the anthropic record, then sets
`cacheControl` to `CACHE_CONTROL`. -/
def withCache (msg : Message) : Message :=
  { msg with
    providerOptions :=
      some (recordSet (msg.providerOptions.getD [])
        "anthropic"
        ((recordSet ((recordGet (msg.providerOptions.getD []) "anthropic").getD [])
          "cacheControl" CACHE_CONTROL : ProviderRecord))) }

/-- `result[i] = withCache(result[i])`, a no-op when `i` is out of range
(the source only performs it at in-range indices). -/
def setWithCache (l : List Message) (i : Nat) : List Message :=
  match l[i]? with
  | some m => l.set i (withCache m)
  | none => l

/-- `injectCacheControl` from the anthropic-cache middleware.  The TS
`findIndex` sentinel `-1` is modelled as `none`; the TS guard
`targetIdx !== sysIdx` with `sysIdx = -1` is always true there, which is
exactly `some targetIdx ≠ none`. -/
def injectCacheControl (prompt : List Message) : List Message :=
  if prompt.length = 0 then prompt
  else
    let sysIdx := prompt.findIdx? (fun m => m.role = Role.system)
    let r1 :=
      match sysIdx with
      | some i => setWithCache prompt i
      | none => prompt
    if 3 ≤ prompt.length then
      if some (prompt.length - 2) ≠ sysIdx then
        setWithCache r1 (prompt.length - 2)
      else r1
    else r1

/-- A message carries a CacheMarker when its anthropic provider record maps
`cacheControl` to `CACHE_CONTROL`. -/
def hasCacheMarker (m : Message) : Bool :=
  match recordGet (m.providerOptions.getD []) "anthropic" with
  | some anth => decide (recordGet anth "cacheControl" = some CACHE_CONTROL)
  | none => false

/-- The positions at which `injectCacheControl` plants a marker: the first
system index, and `length - 2` when the length is at least 3 and that
position is not the system index. -/
def markPos (p : List Message) (j : Nat) : Bool :=
  (p.findIdx? (fun m => m.role = Role.system) = some j)
  || (decide (3 ≤ p.length) && decide (j = p.length - 2)
      && decide (p.findIdx? (fun m => m.role = Role.system) ≠ some (p.length - 2)))

/-- The 3-message prompt of the worked trace in the middleware comment. -/
def promptC1 : List Message :=
  [{ role := .system, content := "sys", providerOptions := none },
   { role := .user, content := "hi", providerOptions := none },
   { role := .assistant, content := "tool-call", providerOptions := none }]

/-- A 2-message prompt for the C8 witness. -/
def promptC8 : List Message :=
  [{ role := .user, content := "q", providerOptions := none },
   { role := .assistant, content := "a", providerOptions := none }]

/-- A message that already carries anthropic and other provider options. -/
def msgC9 : Message :=
  { role := .user, content := "hello",
    providerOptions := some
      [("anthropic", [("beta", .leaf (.str "x"))]),
       ("openai", [("o", .leaf (.num 1))])] }

/-- The two tokenizer kinds distinguished by `getCurrentTokenizerType`
(`'default' | 'deepseek'`). -/
inductive TokenizerType
  | default
  | deepseek
deriving DecidableEq, Repr

/-- The token-map slot name of a tokenizer kind. -/
def TokenizerType.key : TokenizerType → String
  | .default => "default"
  | .deepseek => "deepseek"

/-- The selector passed to `estimateTokens`: `undefined` for the default
tokenizer, `{ provider: '', modelId: 'deepseek' }` (modelled by its
`modelId`) for deepseek. -/
def TokenizerType.sel : TokenizerType → Option String
  | .default => none
  | .deepseek => some "deepseek"

/-- The record returned by `computePreviewMetadata`. -/
structure PreviewMeta where
  lineCount : Nat
  byteLength : Nat
  tokenCountMap : List (String × Nat)
  tokenCalculatedAt : List (String × Nat)
deriving DecidableEq, Repr

/-- `computePreviewMetadata` from `sessionHelpers.ts`.  The collaborators
that are not part of the repository sources are passed in explicitly: `est`
is `estimateTokens` (deterministic tokenizer), `previewLines` is the
`PREVIEW_LINES` constant, `now` is `Date.now()`.  `byteLength` is the UTF-8
encoding size (`new TextEncoder().encode(content).length`). -/
def computePreviewMetadata (est : String → Option String → Nat)
    (previewLines now : Nat) (content : String) (tokenizerType : TokenizerType)
    (existingTokenMap : List (String × Nat)) : PreviewMeta :=
  let lineCount := (content.splitOn "\n").length
  let byteLength := content.utf8ByteSize
  let previewContent := String.intercalate "\n" ((content.splitOn "\n").take previewLines)
  let fullKey := tokenizerType.key
  let previewKey := fullKey ++ "_preview"
  let tokenCountMap1 :=
    if recordGet existingTokenMap fullKey = none then
      recordSet existingTokenMap fullKey (est content tokenizerType.sel)
    else existingTokenMap
  let tokenCalculatedAt1 :=
    if recordGet existingTokenMap fullKey = none then
      recordSet ([] : List (String × Nat)) fullKey now
    else ([] : List (String × Nat))
  { lineCount := lineCount
    byteLength := byteLength
    tokenCountMap := recordSet tokenCountMap1 previewKey (est previewContent tokenizerType.sel)
    tokenCalculatedAt := recordSet tokenCalculatedAt1 previewKey now }

/-- `pre.isPrefixOf s` on character lists, the semantics of JavaScript
`s.startsWith(pre)`. -/
def strHasPrefix : List Char → List Char → Bool
  | [], _ => true
  | _ :: _, [] => false
  | a :: pre, b :: s => a == b && strHasPrefix pre s

/-- JavaScript `s.startsWith(pre)`. -/
def jsStartsWith (s pre : String) : Bool := strHasPrefix pre.toList s.toList

/-- The identity attributes of a `File` used by the pipeline. -/
structure FileInfo where
  name : String
  size : Nat
  type : String
deriving DecidableEq, Repr

/-- `DocumentParserConfig.type`: `'none' | 'local' | 'chatbox-ai' | 'mineru'`. -/
inductive ParserKind
  | parserNone
  | parserLocal
  | parserChatboxAI
  | parserMineru
deriving DecidableEq, Repr

/-- The `mineru` section of the parser configuration. -/
structure MineruConfig where
  apiToken : Option String
deriving DecidableEq, Repr

/-- The effective `DocumentParserConfig`. -/
structure DocumentParserConfig where
  type : ParserKind
  mineru : Option MineruConfig
deriving DecidableEq, Repr

/-- Result of `platform.parseFileLocally`. -/
structure LocalParseResult where
  isSupported : Bool
  key : Option String
deriving DecidableEq, Repr

/-- Result of `platform.parseFileWithMineru`. -/
structure MineruParseResult where
  success : Bool
  content : Option String
  cancelled : Bool
deriving DecidableEq, Repr

/-- The collaborators of `preprocessFile` that live outside the repository
sources, abstracted as oracles: the text-extension test
(`isTextFilePath`), the content-key generator
(`StorageKeyGenerator.fileUniqKey`), the effective parser configuration
(`getEffectiveDocumentParserConfig`), the active tokenizer
(`getCurrentTokenizerType`), the tokenizer itself, the `PREVIEW_LINES`
constant, the clock, and the three parser backends (which may fail with an
arbitrary message, modelled by `Except`).  `mineruParse = none` models a
platform without `platform.parseFileWithMineru`. -/
structure Env where
  isTextFile : String → Bool
  fileUniqKey : FileInfo → String
  parserConfig : DocumentParserConfig
  tokenizerType : TokenizerType
  est : String → Option String → Nat
  previewLines : Nat
  now : Nat
  parseLocally : FileInfo → Except String LocalParseResult
  uploadAndCreateUserFile : FileInfo → Except String String
  mineruParse : Option (FileInfo → String → Except String MineruParseResult)

/-- The storage collaborator: content blobs, token-map items, and an
instrumentation counter of parser-backend invocations. -/
structure World where
  blobs : List (String × String)
  items : List (String × List (String × Nat))
  parserCalls : Nat
deriving DecidableEq, Repr

/-- `storage.getBlob(k)` (a rejection caught by the callers is a miss). -/
def getBlob (w : World) (k : String) : Option String := recordGet w.blobs k

/-- `storage.setBlob(k, v)`. -/
def setBlob (w : World) (k v : String) : World :=
  { w with blobs := recordSet w.blobs k v }

/-- `storage.getItem(k, {})` for a token map. -/
def getItemTokenMap (w : World) (k : String) : List (String × Nat) :=
  (recordGet w.items k).getD []

/-- `storage.setItem(k, v)` for a token map. -/
def setItemTokenMap (w : World) (k : String) (v : List (String × Nat)) : World :=
  { w with items := recordSet w.items k v }

/-- Instrumentation: one parser backend invocation. -/
def bumpParserCalls (w : World) : World :=
  { w with parserCalls := w.parserCalls + 1 }

/-- Modelled from the spec: `TOKEN_CACHE_KEYS` (from `shared/types`, not in
the sources) names the two token-map slots `default` and `deepseek`; the
backends compute both slots for freshly parsed content. -/
def fullTokenCountMap (env : Env) (content : String) : List (String × Nat) :=
  [("default", env.est content none), ("deepseek", env.est content (some "deepseek"))]

/-- `{content, storageKey, tokenCountMap}` returned by each backend. -/
structure ParseOut where
  content : String
  storageKey : String
  tokenCountMap : List (String × Nat)
deriving DecidableEq, Repr

/-- `parseFileWithLocalParser` from `sessionHelpers.ts`.  JavaScript
falsiness of `result.key` and of `content` is an equality test with `""`
(after the `?? ''` / `|| ''` defaulting in the source). -/
def parseFileWithLocalParser (env : Env) (file : FileInfo) (uniqKey : String) (w : World) :
    World × Except String ParseOut :=
  let w1 := bumpParserCalls w
  match env.parseLocally file with
  | .error e => (w1, .error e)
  | .ok result =>
    if !result.isSupported || result.key.getD "" == "" then
      (w1, .error "local_parser_failed")
    else
      let content := (getBlob w1 (result.key.getD "")).getD ""
      let w2 := if content = "" then w1 else setBlob w1 uniqKey content
      let tokenCountMap := if content = "" then [] else fullTokenCountMap env content
      let w3 := if content = "" then w2
        else setItemTokenMap w2 (uniqKey ++ "_tokenMap") tokenCountMap
      (w3, .ok { content := content, storageKey := uniqKey, tokenCountMap := tokenCountMap })

/-- `parseFileWithChatboxAI` from `sessionHelpers.ts`. -/
def parseFileWithChatboxAI (env : Env) (file : FileInfo) (uniqKey : String) (w : World) :
    World × Except String ParseOut :=
  let w1 := bumpParserCalls w
  match env.uploadAndCreateUserFile file with
  | .error e => (w1, .error e)
  | .ok uploadedKey =>
    let content := (getBlob w1 uploadedKey).getD ""
    let w2 := if content = "" then w1 else setBlob w1 uniqKey content
    let tokenCountMap := if content = "" then [] else fullTokenCountMap env content
    let w3 := if content = "" then w2
      else setItemTokenMap w2 (uniqKey ++ "_tokenMap") tokenCountMap
    (w3, .ok { content := content, storageKey := uniqKey, tokenCountMap := tokenCountMap })

/-- `parseFileWithMineruService` from `sessionHelpers.ts`: throws
`parsing_cancelled` on a cancelled parse, `third_party_parser_failed` when
the backend reports failure or empty content. -/
def parseFileWithMineruService (env : Env) (file : FileInfo) (uniqKey apiToken : String)
    (w : World) : World × Except String ParseOut :=
  match env.mineruParse with
  | none => (w, .error "third_party_parser_not_supported_in_chat")
  | some parse =>
    let w1 := bumpParserCalls w
    match parse file apiToken with
    | .error e => (w1, .error e)
    | .ok result =>
      if result.cancelled then (w1, .error "parsing_cancelled")
      else if !result.success || result.content.getD "" == "" then
        (w1, .error "third_party_parser_failed")
      else
        let content := result.content.getD ""
        let w2 := setBlob w1 uniqKey content
        let tokenCountMap := fullTokenCountMap env content
        let w3 := setItemTokenMap w2 (uniqKey ++ "_tokenMap") tokenCountMap
        (w3, .ok { content := content, storageKey := uniqKey, tokenCountMap := tokenCountMap })

/-- The result record of `preprocessFile`. -/
structure PreprocessResult where
  file : FileInfo
  content : String
  storageKey : String
  tokenCountMap : Option (List (String × Nat))
  lineCount : Option Nat
  byteLength : Option Nat
  error : Option String
deriving DecidableEq, Repr

/-- The backend selection of `preprocessFile` on a cache miss: text files
always use the local parser; otherwise the configured backend runs, with
each backend's failures wrapped into its named error condition (the mineru
arm re-throws errors whose message starts with `third_party_parser` and
wraps everything else). -/
def dispatchParse (env : Env) (file : FileInfo) (uniqKey : String) (w : World) :
    World × Except String ParseOut :=
  if env.isTextFile file.name then
    match parseFileWithLocalParser env file uniqKey w with
    | (w1, .ok r) => (w1, .ok r)
    | (w1, .error _) => (w1, .error "local_parser_failed")
  else
    match env.parserConfig.type with
    | .parserNone => (w, .error "document_parser_not_configured")
    | .parserLocal =>
      match parseFileWithLocalParser env file uniqKey w with
      | (w1, .ok r) => (w1, .ok r)
      | (w1, .error _) => (w1, .error "local_parser_failed")
    | .parserChatboxAI =>
      match parseFileWithChatboxAI env file uniqKey w with
      | (w1, .ok r) => (w1, .ok r)
      | (w1, .error _) => (w1, .error "chatbox_ai_parser_failed")
    | .parserMineru =>
      let apiToken := (env.parserConfig.mineru.bind MineruConfig.apiToken).getD ""
      if apiToken == "" then (w, .error "mineru_api_token_required")
      else
        match parseFileWithMineruService env file uniqKey apiToken w with
        | (w1, .ok r) => (w1, .ok r)
        | (w1, .error e) =>
          if jsStartsWith e "third_party_parser" then (w1, .error e)
          else (w1, .error "third_party_parser_failed")

/-- The cache-miss path of `preprocessFile`: run the selected backend, then
compute preview metadata over the fresh token map, persist it, and return;
a failure becomes the catch-branch result with empty content and key. -/
def preprocessFileMiss (env : Env) (file : FileInfo) (uniqKey : String) (w : World) :
    World × PreprocessResult :=
  match dispatchParse env file uniqKey w with
  | (w1, .ok result) =>
    let meta := computePreviewMetadata env.est env.previewLines env.now
      result.content env.tokenizerType result.tokenCountMap
    let w2 := setItemTokenMap w1 (result.storageKey ++ "_tokenMap") meta.tokenCountMap
    (w2, { file := file, content := result.content, storageKey := result.storageKey,
           tokenCountMap := some meta.tokenCountMap, lineCount := some meta.lineCount,
           byteLength := some meta.byteLength, error := none })
  | (w1, .error e) =>
    (w1, { file := file, content := "", storageKey := "", tokenCountMap := none,
           lineCount := none, byteLength := none, error := some e })

/-- `preprocessFile` from `sessionHelpers.ts`.  A stored blob that is
non-empty (JavaScript-truthy) is a cache hit: the token map is extended for
the current tokenizer and re-persisted and the stored content returned with
no parser invocation; otherwise the miss path runs. -/
def preprocessFile (env : Env) (file : FileInfo) (w : World) : World × PreprocessResult :=
  let uniqKey := env.fileUniqKey file
  match getBlob w uniqKey with
  | some existingContent =>
    if existingContent = "" then preprocessFileMiss env file uniqKey w
    else
      let meta := computePreviewMetadata env.est env.previewLines env.now
        existingContent env.tokenizerType (getItemTokenMap w (uniqKey ++ "_tokenMap"))
      let w1 := setItemTokenMap w (uniqKey ++ "_tokenMap") meta.tokenCountMap
      (w1, { file := file, content := existingContent, storageKey := uniqKey,
             tokenCountMap := some meta.tokenCountMap, lineCount := some meta.lineCount,
             byteLength := some meta.byteLength, error := none })
  | none => preprocessFileMiss env file uniqKey w

/-- A stored chat message as the search engine sees it: an id and the text
that `getMessageText` extracts (kept abstract through the `SearchEnv`). -/
structure Msg where
  id : String
  text : String
deriving DecidableEq, Repr

/-- An archived thread of a session. -/
structure SessionThread where
  id : String
  name : String
  messages : List Msg
  createdAt : Nat
deriving DecidableEq, Repr

/-- A persisted session: live messages plus optional archived threads. -/
structure Session where
  id : String
  name : String
  messages : List Msg
  threads : Option (List SessionThread)
deriving DecidableEq, Repr

/-- The collaborators of the search engine: the compiled case-insensitive
literal pattern (`regexp.test`, abstracted as a predicate on the extracted
text), `getMessageText`, `migrateMessage`, `migrateSession` (all from
shared utilities outside the sources) and the session store read. -/
structure SearchEnv where
  test : String → Bool
  getMessageText : Msg → String
  migrateMessage : Msg → Msg
  migrateSession : Session → Session
  getSession : String → Option Session

/-- `regexp.test(getMessageText(message))`. -/
def msgMatches (env : SearchEnv) (m : Msg) : Bool := env.test (env.getMessageText m)

/-- The downward index loop `for (i = len-1; i >= 0; i--) if (test) push`:
matches are collected in order of decreasing index. -/
def scanDown (test : Msg → Bool) : List Msg → List Msg
  | [] => []
  | m :: rest => scanDown test rest ++ (if test m then [m] else [])

/-- The downward loop over archived threads, each scanned downward. -/
def scanThreads (test : Msg → Bool) : List SessionThread → List Msg
  | [] => []
  | t :: rest => scanThreads test rest ++ scanDown test t.messages

/-- `_searchSessions` from `sessionHelpers.ts`: migrate the session, collect
matches from the live messages (most recent first), then from archived
threads (most recent thread first, most recent message first), and migrate
each matched message. -/
def _searchSessions (env : SearchEnv) (s : Session) : List Msg :=
  let session := env.migrateSession s
  ((scanDown (msgMatches env) session.messages)
    ++ scanThreads (msgMatches env) (session.threads.getD [])).map env.migrateMessage

/-- `emitBatch` from `searchSessions`: an empty batch is not emitted. -/
def emitBatch (batch : List Session) : List (List Session) :=
  if batch.length = 0 then [] else [batch]

/-- The multi-session scan loop of `searchSessions`: sessions in list
order, carrying `matchedMessageTotal`; emits a batch per session with
matches and breaks once the total reaches 50.  Returns the emitted batches
in order together with the list of session ids actually scanned (fetched
from the store). -/
def searchLoop (env : SearchEnv) : List String → Nat → List (List Session) × List String
  | [], _ => ([], [])
  | sid :: rest, total =>
    match env.getSession sid with
    | none =>
      let r := searchLoop env rest total
      (r.1, sid :: r.2)
    | some s =>
      let messages := _searchSessions env s
      if 0 < messages.length then
        if 50 ≤ total + messages.length then
          (emitBatch [{ s with messages := messages }], [sid])
        else
          let r := searchLoop env rest (total + messages.length)
          (emitBatch [{ s with messages := messages }] ++ r.1, sid :: r.2)
      else
        if 50 ≤ total then ([], [sid])
        else
          let r := searchLoop env rest total
          (r.1, sid :: r.2)

/-- `searchSessions` from `sessionHelpers.ts`, with the callback emissions
returned as the ordered list of emitted batches.  With an explicit session
id only that session is scanned and its (possibly empty) match list is
always emitted; otherwise the loop over `sessionsList` runs with the
50-match cap. -/
def searchSessions (env : SearchEnv) (sessionId : Option String)
    (sessionsList : List String) : List (List Session) :=
  match sessionId with
  | some sid =>
    match env.getSession sid with
    | none => []
    | some s => emitBatch [{ s with messages := _searchSessions env s }]
  | none => (searchLoop env sessionsList 0).1

/-- The number of matched messages a scanned session id contributes. -/
def matchCount (env : SearchEnv) (sid : String) : Nat :=
  match env.getSession sid with
  | none => 0
  | some s => (_searchSessions env s).length

/-- The batch a scanned session id emits, if any. -/
def emitOf (env : SearchEnv) (sid : String) : Option (List Session) :=
  match env.getSession sid with
  | none => none
  | some s =>
    if 0 < (_searchSessions env s).length then
      some [{ s with messages := _searchSessions env s }]
    else none

/-- Total match count over a list of scanned session ids. -/
def sumMatch (env : SearchEnv) (ids : List String) : Nat :=
  (ids.map (matchCount env)).sum

/-- Total number of matched messages across emitted batches. -/
def emittedSizes (bs : List (List Session)) : Nat :=
  (bs.map (fun b => (b.map (fun s => s.messages.length)).sum)).sum

/-- An empty storage world. -/
def emptyWorld : World := { blobs := [], items := [], parserCalls := 0 }

/-- A non-text file, for the mineru scenarios. -/
def pdfFile : FileInfo := { name := "doc.pdf", size := 5, type := "application/pdf" }

/-- An environment configured with the mineru backend and an API token,
whose platform parse reports a user cancellation. -/
def mineruCancelEnv : Env :=
  { isTextFile := fun _ => false
    fileUniqKey := fun f => "file:" ++ f.name
    parserConfig := { type := .parserMineru, mineru := some { apiToken := some "token" } }
    tokenizerType := .default
    est := fun s _ => s.length
    previewLines := 10
    now := 0
    parseLocally := fun _ => .error "unused"
    uploadAndCreateUserFile := fun _ => .error "unused"
    mineruParse := some (fun _ _ => .ok { success := false, content := none, cancelled := true }) }

/-- A world that already holds preprocessed content for `pdfFile` under the
key scheme of `mineruCancelEnv`, for the C4 witness. -/
def primedWorld : World :=
  { blobs := [("file:doc.pdf", "stored content")]
    items := [("file:doc.pdf_tokenMap", [("default", 14)])]
    parserCalls := 0 }

/-- A session with no matching message. -/
def sessionOne : Session :=
  { id := "s1", name := "one"
    messages := [{ id := "m1", text := "hello" }]
    threads := none }

/-- A session with two matching messages (one live, one archived). -/
def sessionTwo : Session :=
  { id := "s2", name := "two"
    messages := [{ id := "m2", text := "hit" }, { id := "m3", text := "miss" }]
    threads := some [{ id := "t1", name := "old", createdAt := 1
                       messages := [{ id := "m4", text := "hit" }] }] }

/-- A session with no matching message and an archived thread. -/
def sessionThree : Session :=
  { id := "s3", name := "three"
    messages := []
    threads := some [{ id := "t2", name := "old2", createdAt := 2
                       messages := [{ id := "m5", text := "nope" }] }] }

/-- A concrete search environment over the three sessions above, matching
exactly the text `"hit"`. -/
def searchEnvW : SearchEnv :=
  { test := fun t => t == "hit"
    getMessageText := Msg.text
    migrateMessage := fun m => m
    migrateSession := fun s => s
    getSession := fun sid =>
      if sid == "s1" then some sessionOne
      else if sid == "s2" then some sessionTwo
      else if sid == "s3" then some sessionThree
      else none }

theorem recordGet_recordSet_self {α : Type} (r : List (String × α)) (k : String) (v : α) :
    recordGet (recordSet r k v) k = some v := by
  unfold recordGet recordSet
  by_cases h : r.any (fun p => p.1 = k)
  · simp only [h, if_true]
    induction r with
    | nil => simp at h
    | cons p r ih =>
      by_cases hp : p.1 = k
      · simp [List.find?, hp]
      · simp only [List.any_cons, hp, decide_eq_true_eq, Bool.false_or] at h
        simp only [List.map_cons, if_neg hp, List.find?]
        have : (decide (p.1 = k)) = false := by simp [hp]
        simp only [this, Bool.false_eq_true]
        exact ih h
  · simp only [h, if_false]
    induction r with
    | nil => simp [List.find?]
    | cons p r ih =>
      simp only [List.any_cons, Bool.or_eq_true, decide_eq_true_eq] at h
      push_neg at h
      simp only [List.cons_append, List.find?]
      have : (decide (p.1 = k)) = false := by simp [h.1]
      simp only [this, Bool.false_eq_true]
      exact ih h.2

theorem find?_map_overwrite {α : Type} (k k' : String) (v : α) (h : k' ≠ k) :
    ∀ r : List (String × α),
      List.find? (fun p => decide (p.1 = k')) (r.map (fun p => if p.1 = k then (k, v) else p))
        = List.find? (fun p => decide (p.1 = k')) r := by
  intro r
  induction r with
  | nil => rfl
  | cons p r ih =>
    by_cases hp : p.1 = k
    · have h1 : (decide (k = k')) = false := decide_eq_false (fun hh => h hh.symm)
      have h2 : (decide (p.1 = k')) = false := by
        refine decide_eq_false ?_
        intro hh
        exact h (hh ▸ hp ▸ rfl)
      simp only [List.map_cons, if_pos hp, List.find?, h1, h2, Bool.false_eq_true]
      exact ih
    · simp only [List.map_cons, if_neg hp, List.find?]
      cases hpk : decide (p.1 = k') with
      | true => rfl
      | false => exact ih

theorem find?_append_single_ne {α : Type} (k k' : String) (v : α) (h : k' ≠ k) :
    ∀ r : List (String × α),
      List.find? (fun p => decide (p.1 = k')) (r ++ [(k, v)])
        = List.find? (fun p => decide (p.1 = k')) r := by
  intro r
  induction r with
  | nil =>
    have h1 : (decide (k = k')) = false := decide_eq_false (fun hh => h hh.symm)
    simp [List.find?, h1]
  | cons p r ih =>
    simp only [List.cons_append, List.find?]
    cases hpk : decide (p.1 = k') with
    | true => rfl
    | false => exact ih

theorem recordGet_recordSet_ne {α : Type} (r : List (String × α)) (k k' : String) (v : α)
    (h : k' ≠ k) : recordGet (recordSet r k v) k' = recordGet r k' := by
  unfold recordGet recordSet
  by_cases ha : r.any (fun p => p.1 = k)
  · simp only [ha, if_true]
    rw [find?_map_overwrite k k' v h r]
  · simp only [ha, Bool.false_eq_true, if_false]
    rw [find?_append_single_ne k k' v h r]

theorem hasCacheMarker_withCache (m : Message) : hasCacheMarker (withCache m) = true := by
  unfold hasCacheMarker withCache
  simp only [Option.getD_some]
  rw [recordGet_recordSet_self]
  simp [recordGet_recordSet_self]

theorem withCache_role (m : Message) : (withCache m).role = m.role := rfl

theorem withCache_content (m : Message) : (withCache m).content = m.content := rfl

theorem setWithCache_length (l : List Message) (i : Nat) :
    (setWithCache l i).length = l.length := by
  unfold setWithCache
  cases h : l[i]? with
  | none => rfl
  | some m => simp

theorem setWithCache_getElem? (l : List Message) (i j : Nat) :
    (setWithCache l i)[j]? = if i = j then (l[j]?).map withCache else l[j]? := by
  unfold setWithCache
  cases h : l[i]? with
  | none =>
    by_cases hij : i = j
    · subst hij
      simp [h]
    · simp [hij]
  | some m =>
    have hi : i < l.length := (List.getElem?_eq_some_iff.mp h).1
    by_cases hij : i = j
    · subst hij
      rw [List.getElem?_set_self hi, h]
      simp
    · rw [List.getElem?_set_ne hij]
      simp [hij]

theorem injectCacheControl_length (p : List Message) :
    (injectCacheControl p).length = p.length := by
  unfold injectCacheControl
  by_cases h0 : p.length = 0
  · simp [h0]
  · simp only [if_neg h0]
    cases hF : p.findIdx? (fun m => m.role = Role.system) with
    | none =>
      by_cases h3 : 3 ≤ p.length <;> simp [h3, setWithCache_length]
    | some s =>
      by_cases h3 : 3 ≤ p.length
      · by_cases hne : (some (p.length - 2) : Option Nat) ≠ some s <;>
          simp [h3, hne, setWithCache_length]
      · simp [h3, setWithCache_length]

theorem injectCacheControl_getElem? (p : List Message) (j : Nat) :
    (injectCacheControl p)[j]? = (p[j]?).map (fun m => if markPos p j then withCache m else m) := by
  unfold injectCacheControl markPos
  by_cases h0 : p.length = 0
  · have hp : p = [] := List.length_eq_zero.mp h0
    subst hp
    simp
  · simp only [if_neg h0]
    cases hF : p.findIdx? (fun m => m.role = Role.system) with
    | none =>
      by_cases h3 : 3 ≤ p.length
      · simp only [if_pos h3]
        have hne : (some (p.length - 2) : Option Nat) ≠ none := by simp
        rw [if_pos hne]
        rw [setWithCache_getElem?]
        by_cases hj : j = p.length - 2
        · subst hj
          simp [h3]
        · have : ¬(p.length - 2 = j) := fun hh => hj hh.symm
          simp only [if_neg this]
          simp [hj]
        -- markPos reduces to the second disjunct here
      · simp only [if_neg h3]
        have : ¬(3 ≤ p.length ∧ j = p.length - 2 ∧
            (none : Option Nat) ≠ some (p.length - 2)) := fun hh => h3 hh.1
        simp [h3]
    | some s =>
      by_cases h3 : 3 ≤ p.length
      · by_cases hne : (some (p.length - 2) : Option Nat) ≠ some s
        · have hsne : p.length - 2 ≠ s := fun hh => hne (by rw [hh])
          simp only [if_pos h3, if_pos hne]
          rw [setWithCache_getElem?, setWithCache_getElem?]
          by_cases hj1 : p.length - 2 = j
          · subst hj1
            have : ¬(s = p.length - 2) := fun hh => hsne hh.symm
            simp only [if_pos rfl, if_neg this]
            have hsj : ¬((some s : Option Nat) = some (p.length - 2)) := by
              simpa using fun hh => hsne hh.symm
            simp [h3, hsj]
          · by_cases hj2 : s = j
            · subst hj2
              simp only [if_neg hj1, if_pos rfl]
              simp
            · simp only [if_neg hj1, if_neg hj2]
              have h1 : ¬((some s : Option Nat) = some j) := by simpa using hj2
              have h2 : ¬(j = p.length - 2) := fun hh => hj1 hh.symm
              simp [h1, h2]
        · have hs : p.length - 2 = s := by
            have := not_not.mp hne
            exact Option.some.inj this
          simp only [if_pos h3, if_neg hne]
          rw [setWithCache_getElem?]
          by_cases hj : s = j
          · subst hj
            simp [hF]
          · have h1 : ¬((some s : Option Nat) = some j) := by simpa using hj
            have h2 : ¬(p.length - 2 = j) := by rw [hs]; exact hj
            simp only [if_neg hj]
            simp [h1, hs, hj]
      · simp only [if_neg h3]
        rw [setWithCache_getElem?]
        by_cases hj : s = j
        · subst hj
          simp
        · have h1 : ¬((some s : Option Nat) = some j) := by simpa using hj
          simp only [if_neg hj]
          simp [h1, h3]

theorem countP_set_le {α : Type} (l : List α) (i : Nat) (a : α) (q : α → Bool) :
    (l.set i a).countP q ≤ l.countP q + 1 := by
  induction l generalizing i with
  | nil => simp
  | cons x xs ih =>
    cases i with
    | zero =>
      simp only [List.set_cons_zero, List.countP_cons]
      by_cases ha : q a = true <;> by_cases hx : q x = true <;> simp [ha, hx] <;> omega
    | succ n =>
      simp only [List.set_cons_succ, List.countP_cons]
      have := ih n
      by_cases hx : q x = true <;> simp [hx] <;> omega

theorem countP_setWithCache_le (l : List Message) (i : Nat) (q : Message → Bool) :
    (setWithCache l i).countP q ≤ l.countP q + 1 := by
  unfold setWithCache
  cases h : l[i]? with
  | none => exact Nat.le_succ _
  | some m => exact countP_set_le l i (withCache m) q

theorem countP_injectCacheControl_le (p : List Message) (q : Message → Bool) :
    (injectCacheControl p).countP q ≤ p.countP q + 2 := by
  unfold injectCacheControl
  by_cases h0 : p.length = 0
  · simp only [if_pos h0]
    omega
  · simp only [if_neg h0]
    cases hF : p.findIdx? (fun m => m.role = Role.system) with
    | none =>
      by_cases h3 : 3 ≤ p.length
      · have a1 := countP_setWithCache_le p (p.length - 2) q
        simp only [if_pos h3]
        have hne : (some (p.length - 2) : Option Nat) ≠ none := by simp
        rw [if_pos hne]
        omega
      · simp only [if_neg h3]
        omega
    | some s =>
      by_cases h3 : 3 ≤ p.length
      · by_cases hne : (some (p.length - 2) : Option Nat) ≠ some s
        · have a1 := countP_setWithCache_le p s q
          have a2 := countP_setWithCache_le (setWithCache p s) (p.length - 2) q
          simp only [if_pos h3, if_pos hne]
          omega
        · have a1 := countP_setWithCache_le p s q
          simp only [if_pos h3, if_neg hne]
          omega
      · have a1 := countP_setWithCache_le p s q
        simp only [if_neg h3]
        omega

theorem mem_of_getElem?_some {α : Type} {l : List α} {j : Nat} {a : α}
    (h : l[j]? = some a) : a ∈ l := by
  obtain ⟨hj, rfl⟩ := List.getElem?_eq_some_iff.mp h
  exact List.getElem_mem hj

/-- C1: for every prompt handed to `injectCacheControl` (with no marker
already present on the input, as always holds for the freshly assembled
prompts the middleware receives): an empty prompt is returned unchanged; the
first system-role index `s` carries a CacheMarker in the output; if the
length is at least 3 and `length - 2` differs from `s`, index `length - 2`
also carries a CacheMarker; a prompt of length 1 or 2 only ever carries a
marker at the system index; a prompt with no system message carries markers
only at `length - 2` (and only when the length is at least 3); and the
output never carries more than two markers. -/
theorem injectCacheControl_breakpoint_plan (p : List Message)
    (hclean : ∀ m ∈ p, hasCacheMarker m = false) :
    (p = [] → injectCacheControl p = p)
    ∧ (∀ s, p.findIdx? (fun m => m.role = Role.system) = some s →
        ∃ m, (injectCacheControl p)[s]? = some m ∧ hasCacheMarker m = true)
    ∧ (3 ≤ p.length →
        p.findIdx? (fun m => m.role = Role.system) ≠ some (p.length - 2) →
        ∃ m, (injectCacheControl p)[p.length - 2]? = some m ∧ hasCacheMarker m = true)
    ∧ ((p.length = 1 ∨ p.length = 2) →
        ∀ j m, (injectCacheControl p)[j]? = some m → hasCacheMarker m = true →
          p.findIdx? (fun m => m.role = Role.system) = some j)
    ∧ (p.findIdx? (fun m => m.role = Role.system) = none →
        ∀ j m, (injectCacheControl p)[j]? = some m → hasCacheMarker m = true →
          3 ≤ p.length ∧ j = p.length - 2)
    ∧ (injectCacheControl p).countP hasCacheMarker ≤ 2 := by
  refine ⟨?_, ?_, ?_, ?_, ?_, ?_⟩
  · intro h
    subst h
    rfl
  · intro s hs
    have hlt : s < p.length := (List.findIdx?_eq_some_iff_getElem.mp hs).1
    refine ⟨withCache p[s], ?_, hasCacheMarker_withCache _⟩
    rw [injectCacheControl_getElem?, List.getElem?_eq_getElem hlt]
    have hmark : markPos p s = true := by
      simp [markPos, hs]
    simp [hmark]
  · intro h3 hne
    have hlt : p.length - 2 < p.length := by omega
    refine ⟨withCache p[p.length - 2], ?_, hasCacheMarker_withCache _⟩
    rw [injectCacheControl_getElem?, List.getElem?_eq_getElem hlt]
    have hmark : markPos p (p.length - 2) = true := by
      simp [markPos, h3, hne]
    simp [hmark]
  · intro hlen j m hj hm
    rw [injectCacheControl_getElem?] at hj
    cases hpj : p[j]? with
    | none => simp [hpj] at hj
    | some m0 =>
      rw [hpj] at hj
      simp only [Option.map_some', Option.some.injEq] at hj
      by_cases hmark : markPos p j = true
      · have h2 : ¬(3 ≤ p.length) := by omega
        simp only [markPos, Bool.or_eq_true, Bool.and_eq_true, decide_eq_true_eq] at hmark
        rcases hmark with h | ⟨⟨h3, _⟩, _⟩
        · exact h
        · exact absurd h3 h2
      · rw [if_neg (by simpa using hmark)] at hj
        subst hj
        exact absurd hm (by simp [hclean m0 (mem_of_getElem?_some hpj)])
  · intro hF j m hj hm
    rw [injectCacheControl_getElem?] at hj
    cases hpj : p[j]? with
    | none => simp [hpj] at hj
    | some m0 =>
      rw [hpj] at hj
      simp only [Option.map_some', Option.some.injEq] at hj
      by_cases hmark : markPos p j = true
      · simp only [markPos, Bool.or_eq_true, Bool.and_eq_true, decide_eq_true_eq] at hmark
        rcases hmark with h | ⟨⟨h3, hj2⟩, _⟩
        · rw [hF] at h
          exact absurd h (by simp)
        · exact ⟨h3, hj2⟩
      · rw [if_neg (by simpa using hmark)] at hj
        subst hj
        exact absurd hm (by simp [hclean m0 (mem_of_getElem?_some hpj)])
  · have h0 : p.countP hasCacheMarker = 0 :=
      List.countP_eq_zero.mpr (fun a ha => by simp [hclean a ha])
    have := countP_injectCacheControl_le p hasCacheMarker
    omega

/-- Witness for C1: the clean 3-message prompt satisfies the hypothesis and
the marker-count bound of `injectCacheControl_breakpoint_plan`. -/
theorem injectCacheControl_breakpoint_plan_witness :
    promptC1.countP hasCacheMarker = 0
    ∧ (injectCacheControl promptC1).countP hasCacheMarker ≤ 2 :=
  ⟨by decide, (injectCacheControl_breakpoint_plan promptC1 (by decide)).2.2.2.2.2⟩

/-- C8: `injectCacheControl` is a pure transform of the current prompt: it
returns a sequence of the same length, the message at each index keeps its
role and content (only the provider-options annotation can change), and
equal input prompts produce equal outputs regardless of earlier calls (the
embedding is a function of the prompt alone, so no I/O or mutation of the
input sequence is possible). -/
theorem injectCacheControl_pure_frame (p : List Message) :
    (injectCacheControl p).length = p.length
    ∧ (∀ j : Nat, ((injectCacheControl p)[j]?).map Message.role = (p[j]?).map Message.role)
    ∧ (∀ j : Nat, ((injectCacheControl p)[j]?).map Message.content = (p[j]?).map Message.content)
    ∧ (∀ q, p = q → injectCacheControl p = injectCacheControl q) := by
  refine ⟨injectCacheControl_length p, ?_, ?_, ?_⟩
  · intro j
    rw [injectCacheControl_getElem?]
    cases hpj : p[j]? with
    | none => rfl
    | some m => by_cases h : markPos p j = true <;> simp [h, withCache_role]
  · intro j
    rw [injectCacheControl_getElem?]
    cases hpj : p[j]? with
    | none => rfl
    | some m => by_cases h : markPos p j = true <;> simp [h, withCache_content]
  · intro q h
    rw [h]

/-- Witness for C8 at a concrete 2-message prompt. -/
theorem injectCacheControl_pure_frame_witness :
    (injectCacheControl promptC8).length = promptC8.length
    ∧ injectCacheControl promptC8 = injectCacheControl promptC8 :=
  ⟨(injectCacheControl_pure_frame promptC8).1,
   (injectCacheControl_pure_frame promptC8).2.2.2 promptC8 rfl⟩

/-- C9: `withCache` changes only the `cacheControl` entry of the anthropic
provider record: role and content are untouched, every provider-options key
other than `anthropic` keeps its record, every pre-existing key under
`anthropic` other than `cacheControl` keeps its value, and `cacheControl`
is set to `{ type: 'ephemeral' }`. -/
theorem withCache_frame (m : Message) :
    (withCache m).role = m.role
    ∧ (withCache m).content = m.content
    ∧ (∀ k, k ≠ "anthropic" →
        recordGet ((withCache m).providerOptions.getD []) k
          = recordGet (m.providerOptions.getD []) k)
    ∧ (∀ k, k ≠ "cacheControl" →
        recordGet ((recordGet ((withCache m).providerOptions.getD []) "anthropic").getD []) k
          = recordGet ((recordGet (m.providerOptions.getD []) "anthropic").getD []) k)
    ∧ recordGet ((recordGet ((withCache m).providerOptions.getD []) "anthropic").getD [])
        "cacheControl" = some CACHE_CONTROL := by
  refine ⟨rfl, rfl, ?_, ?_, ?_⟩
  · intro k hk
    show recordGet (recordSet (m.providerOptions.getD []) "anthropic" _) k = _
    exact recordGet_recordSet_ne _ _ _ _ hk
  · intro k hk
    show recordGet ((recordGet (recordSet (m.providerOptions.getD []) "anthropic" _) "anthropic").getD []) k = _
    rw [recordGet_recordSet_self]
    show recordGet (recordSet _ "cacheControl" CACHE_CONTROL) k = _
    exact recordGet_recordSet_ne _ _ _ _ hk
  · show recordGet ((recordGet (recordSet (m.providerOptions.getD []) "anthropic" _) "anthropic").getD []) "cacheControl" = _
    rw [recordGet_recordSet_self]
    exact recordGet_recordSet_self _ _ _

/-- A message that already carries anthropic and other provider options. -/

theorem TokenizerType.key_ne_preview (t : TokenizerType) :
    t.key ≠ t.key ++ "_preview" := by
  cases t <;> decide

/-- C3: the full-content slot named `t.key` is preserved (value untouched,
no fresh timestamp) when already present in the existing map, and computed
and added (with a fresh timestamp) exactly when absent; the preview slot
`t.key ++ "_preview"` is recomputed on every call, over the first
`previewLines` lines, with a fresh timestamp. -/
theorem computePreviewMetadata_token_slots
    (est : String → Option String → Nat) (prevL now : Nat)
    (content : String) (t : TokenizerType) (existing : List (String × Nat)) :
    (∀ v, recordGet existing t.key = some v →
        recordGet (computePreviewMetadata est prevL now content t existing).tokenCountMap t.key
          = some v
        ∧ recordGet (computePreviewMetadata est prevL now content t existing).tokenCalculatedAt t.key
          = none)
    ∧ (recordGet existing t.key = none →
        recordGet (computePreviewMetadata est prevL now content t existing).tokenCountMap t.key
          = some (est content t.sel)
        ∧ recordGet (computePreviewMetadata est prevL now content t existing).tokenCalculatedAt t.key
          = some now)
    ∧ recordGet (computePreviewMetadata est prevL now content t existing).tokenCountMap
        (t.key ++ "_preview")
        = some (est (String.intercalate "\n" ((content.splitOn "\n").take prevL)) t.sel)
    ∧ recordGet (computePreviewMetadata est prevL now content t existing).tokenCalculatedAt
        (t.key ++ "_preview")
        = some now := by
  have hkey := TokenizerType.key_ne_preview t
  unfold computePreviewMetadata
  refine ⟨?_, ?_, ?_, ?_⟩
  · intro v hv
    have habs : ¬(recordGet existing t.key = none) := by simp [hv]
    simp only [if_neg habs]
    constructor
    · rw [recordGet_recordSet_ne _ _ _ _ hkey]
      exact hv
    · rw [recordGet_recordSet_ne _ _ _ _ hkey]
      rfl
  · intro habs
    simp only [if_pos habs]
    constructor
    · rw [recordGet_recordSet_ne _ _ _ _ hkey]
      exact recordGet_recordSet_self _ _ _
    · rw [recordGet_recordSet_ne _ _ _ _ hkey]
      exact recordGet_recordSet_self _ _ _
  · by_cases habs : recordGet existing t.key = none <;>
      simp only [if_pos, if_neg, habs, if_true, if_false] <;>
      exact recordGet_recordSet_self _ _ _
  · by_cases habs : recordGet existing t.key = none <;>
      simp only [if_pos, if_neg, habs, if_true, if_false] <;>
      exact recordGet_recordSet_self _ _ _

/-- Witness for C3: an existing map with the `"default"` slot populated at
7 keeps value 7 and gets no fresh timestamp, while the `"default_preview"`
slot is recomputed; with the slot absent it is computed and stamped. -/
theorem computePreviewMetadata_token_slots_witness :
    recordGet (computePreviewMetadata (fun s _ => s.length) 1 42 "a\nb" .default
        [("default", 7)]).tokenCountMap "default" = some 7
    ∧ recordGet (computePreviewMetadata (fun s _ => s.length) 1 42 "a\nb" .default
        [("default", 7)]).tokenCalculatedAt "default" = none
    ∧ recordGet (computePreviewMetadata (fun s _ => s.length) 1 42 "a\nb" .default
        []).tokenCountMap "default" = some 3
    ∧ recordGet (computePreviewMetadata (fun s _ => s.length) 1 42 "a\nb" .default
        []).tokenCalculatedAt "default" = some 42 := by
  have h1 := (computePreviewMetadata_token_slots (fun s _ => s.length) 1 42 "a\nb"
    .default [("default", 7)]).1 7 (by decide)
  have h2 := (computePreviewMetadata_token_slots (fun s _ => s.length) 1 42 "a\nb"
    .default []).2.1 (by decide)
  refine ⟨h1.1, h1.2, ?_, h2.2⟩
  have := h2.1
  simpa using this

/-- Witness for C9 at a message with pre-existing provider options. -/
theorem withCache_frame_witness :
    recordGet ((withCache msgC9).providerOptions.getD []) "openai"
      = recordGet (msgC9.providerOptions.getD []) "openai"
    ∧ recordGet ((recordGet ((withCache msgC9).providerOptions.getD []) "anthropic").getD [])
        "beta"
      = recordGet ((recordGet (msgC9.providerOptions.getD []) "anthropic").getD []) "beta"
    ∧ recordGet ((recordGet ((withCache msgC9).providerOptions.getD []) "anthropic").getD [])
        "cacheControl" = some CACHE_CONTROL :=
  ⟨(withCache_frame msgC9).2.2.1 "openai" (by decide),
   (withCache_frame msgC9).2.2.2.1 "beta" (by decide),
   (withCache_frame msgC9).2.2.2.2⟩

theorem computePreviewMetadata_extends (est : String → Option String → Nat)
    (prevL now : Nat) (content : String) (t : TokenizerType)
    (existing : List (String × Nat)) :
    ∀ k v, recordGet existing k = some v → k ≠ t.key ++ "_preview" →
      recordGet (computePreviewMetadata est prevL now content t existing).tokenCountMap k
        = some v := by
  intro k v hk hkp
  unfold computePreviewMetadata
  by_cases habs : recordGet existing t.key = none
  · simp only [if_pos habs]
    rw [recordGet_recordSet_ne _ _ _ _ hkp]
    by_cases hkf : k = t.key
    · subst hkf
      rw [hk] at habs
      exact absurd habs (by simp)
    · rw [recordGet_recordSet_ne _ _ _ _ hkf]
      exact hk
  · simp only [if_neg habs]
    rw [recordGet_recordSet_ne _ _ _ _ hkp]
    exact hk

/-- C4: when the ContentKey of a file already maps to a stored non-empty
blob, `preprocessFile` returns exactly that content with no error, never
invokes a parser backend (the invocation counter is unchanged, and the blob
store is untouched), and only extends and re-persists the token map for the
currently selected tokenizer: every previously stored slot other than the
recomputed preview slot keeps its value. -/
theorem preprocessFile_cache_hit (env : Env) (file : FileInfo) (w : World) (c : String)
    (hc : getBlob w (env.fileUniqKey file) = some c) (hne : c ≠ "") :
    (preprocessFile env file w).2.content = c
    ∧ (preprocessFile env file w).2.error = none
    ∧ (preprocessFile env file w).2.storageKey = env.fileUniqKey file
    ∧ (preprocessFile env file w).1.parserCalls = w.parserCalls
    ∧ (preprocessFile env file w).1.blobs = w.blobs
    ∧ (preprocessFile env file w).1.items
        = recordSet w.items (env.fileUniqKey file ++ "_tokenMap")
            (computePreviewMetadata env.est env.previewLines env.now c env.tokenizerType
              (getItemTokenMap w (env.fileUniqKey file ++ "_tokenMap"))).tokenCountMap
    ∧ (∀ k v,
        recordGet (getItemTokenMap w (env.fileUniqKey file ++ "_tokenMap")) k = some v →
        k ≠ env.tokenizerType.key ++ "_preview" →
        recordGet ((computePreviewMetadata env.est env.previewLines env.now c env.tokenizerType
            (getItemTokenMap w (env.fileUniqKey file ++ "_tokenMap"))).tokenCountMap) k
          = some v) := by
  simp only [preprocessFile]
  rw [hc]
  simp only [if_neg hne]
  refine ⟨?_, ?_, ?_, ?_, ?_, ?_,
    computePreviewMetadata_extends env.est env.previewLines env.now c env.tokenizerType _⟩ <;>
    trivial

/-- Witness for C4: a world already holding content for `pdfFile` returns
the stored content and performs no parser invocation. -/
theorem preprocessFile_cache_hit_witness :
    (preprocessFile mineruCancelEnv pdfFile primedWorld).2.content = "stored content"
    ∧ (preprocessFile mineruCancelEnv pdfFile primedWorld).2.error = none
    ∧ (preprocessFile mineruCancelEnv pdfFile primedWorld).1.parserCalls
        = primedWorld.parserCalls := by
  have h := preprocessFile_cache_hit mineruCancelEnv pdfFile primedWorld "stored content"
    (by decide) (by decide)
  exact ⟨h.1, h.2.1, h.2.2.2.1⟩

theorem jsStartsWith_tpp_ne_empty (e : String)
    (h : jsStartsWith e "third_party_parser" = true) : e ≠ "" := by
  intro he
  subst he
  exact absurd h (by decide)

theorem dispatchParse_error_ne_empty (env : Env) (file : FileInfo) (uniqKey : String)
    (w : World) (e : String)
    (h : (dispatchParse env file uniqKey w).2 = Except.error e) : e ≠ "" := by
  unfold dispatchParse at h
  split at h
  · -- text file: local parser, failures wrapped to local_parser_failed
    split at h
    · simp at h
    · simp only [] at h
      rw [show (Except.error "local_parser_failed" : Except String ParseOut)
        = (Except.error e : Except String ParseOut) ↔ "local_parser_failed" = e by simp] at h
      subst h
      decide
  · -- non-text file: dispatch on the configured parser kind
    split at h
    · -- parserNone
      simp only [] at h
      rw [show (Except.error "document_parser_not_configured" : Except String ParseOut)
        = (Except.error e : Except String ParseOut) ↔ "document_parser_not_configured" = e
        by simp] at h
      subst h
      decide
    · -- parserLocal
      split at h
      · simp at h
      · simp only [] at h
        rw [show (Except.error "local_parser_failed" : Except String ParseOut)
          = (Except.error e : Except String ParseOut) ↔ "local_parser_failed" = e by simp] at h
        subst h
        decide
    · -- parserChatboxAI
      split at h
      · simp at h
      · simp only [] at h
        rw [show (Except.error "chatbox_ai_parser_failed" : Except String ParseOut)
          = (Except.error e : Except String ParseOut) ↔ "chatbox_ai_parser_failed" = e
          by simp] at h
        subst h
        decide
    · -- parserMineru
      simp only [] at h
      split at h
      · -- missing api token
        simp only [] at h
        rw [show (Except.error "mineru_api_token_required" : Except String ParseOut)
          = (Except.error e : Except String ParseOut) ↔ "mineru_api_token_required" = e
          by simp] at h
        subst h
        decide
      · split at h
        · simp at h
        · -- backend error, re-thrown or wrapped
          split at h
          · -- re-thrown: the message starts with third_party_parser
            rename_i hjs
            rw [Except.error.injEq] at h
            subst h
            exact jsStartsWith_tpp_ne_empty _ hjs
          · rw [show (Except.error "third_party_parser_failed" : Except String ParseOut)
              = (Except.error e : Except String ParseOut) ↔ "third_party_parser_failed" = e
              by simp] at h
            subst h
            decide

theorem preprocessFileMiss_error_boundary (env : Env) (file : FileInfo)
    (uniqKey : String) (w : World) :
    (preprocessFileMiss env file uniqKey w).2.error = none
    ∨ (∃ e, (preprocessFileMiss env file uniqKey w).2.error = some e ∧ e ≠ ""
        ∧ (preprocessFileMiss env file uniqKey w).2.content = ""
        ∧ (preprocessFileMiss env file uniqKey w).2.storageKey = "") := by
  rcases hd : dispatchParse env file uniqKey w with ⟨w1, r⟩
  cases r with
  | ok res =>
    left
    unfold preprocessFileMiss
    rw [hd]
  | error e =>
    right
    refine ⟨e, ?_, dispatchParse_error_ne_empty env file uniqKey w e (by rw [hd]), ?_, ?_⟩ <;>
      · unfold preprocessFileMiss
        rw [hd]

/-- C6: `preprocessFile` never lets a failure escape: for every oracle
environment, file and storage state its result either carries no error
(success) or carries a non-empty error string together with empty content
and storage-key fields. -/
theorem preprocessFile_error_boundary (env : Env) (file : FileInfo) (w : World) :
    (preprocessFile env file w).2.error = none
    ∨ (∃ e, (preprocessFile env file w).2.error = some e ∧ e ≠ ""
        ∧ (preprocessFile env file w).2.content = ""
        ∧ (preprocessFile env file w).2.storageKey = "") := by
  simp only [preprocessFile]
  split
  · split
    · exact preprocessFileMiss_error_boundary env file _ w
    · left
      rfl
  · exact preprocessFileMiss_error_boundary env file _ w

/-- C2 (code bug at the failing input): with the mineru backend configured
(API token present) and the platform reporting a cancelled parse,
`parseFileWithMineruService` throws the distinct `parsing_cancelled`
condition, but the `mineru` arm of `preprocessFile` re-throws only errors
whose message starts with `third_party_parser`, so the returned result
carries the generic `third_party_parser_failed` instead of
`parsing_cancelled`. -/
theorem preprocessFile_mineru_cancelled_wrapped :
    (parseFileWithMineruService mineruCancelEnv pdfFile "file:doc.pdf" "token" emptyWorld).2
      = Except.error "parsing_cancelled"
    ∧ (preprocessFile mineruCancelEnv pdfFile emptyWorld).2.error
      = some "third_party_parser_failed" := by
  constructor
  · rfl
  · rfl

theorem emitBatch_singleton (x : Session) : emitBatch [x] = [[x]] := rfl

theorem sumMatch_cons (env : SearchEnv) (sid : String) (l : List String) :
    sumMatch env (sid :: l) = matchCount env sid + sumMatch env l := by
  simp [sumMatch]

theorem emittedSizes_cons (b : List Session) (bs : List (List Session)) :
    emittedSizes (b :: bs)
      = (b.map (fun s => s.messages.length)).sum + emittedSizes bs := by
  simp [emittedSizes]

theorem scanDown_eq_filter_reverse (test : Msg → Bool) (l : List Msg) :
    scanDown test l = l.reverse.filter test := by
  induction l with
  | nil => rfl
  | cons m rest ih =>
    simp only [scanDown, ih, List.reverse_cons, List.filter_append]
    cases h : test m <;> simp [List.filter_cons, h]

theorem scanThreads_eq_flatMap (test : Msg → Bool) (ts : List SessionThread) :
    scanThreads test ts
      = ts.reverse.flatMap (fun t => t.messages.reverse.filter test) := by
  induction ts with
  | nil => rfl
  | cons t rest ih =>
    simp only [scanThreads, ih, scanDown_eq_filter_reverse, List.reverse_cons,
      List.flatMap_append, List.flatMap_cons, List.flatMap_nil, List.append_nil]

theorem length_filterMap_eq_length_filter {α β : Type} (f : α → Option β) (l : List α) :
    (l.filterMap f).length = (l.filter (fun a => (f a).isSome)).length := by
  induction l with
  | nil => rfl
  | cons a l ih =>
    cases hf : f a with
    | none => simp [List.filterMap_cons, hf, List.filter_cons, ih]
    | some b => simp [List.filterMap_cons, hf, List.filter_cons, ih]

theorem searchLoop_batches (env : SearchEnv) :
    ∀ (ids : List String) (total : Nat),
      (searchLoop env ids total).1 = (searchLoop env ids total).2.filterMap (emitOf env) := by
  intro ids
  induction ids with
  | nil => intro total; rfl
  | cons sid rest ih =>
    intro total
    cases hs : env.getSession sid with
    | none =>
      simp only [searchLoop, hs]
      rw [List.filterMap_cons_none (by simp [emitOf, hs])]
      exact ih total
    | some s =>
      by_cases hlen : 0 < (_searchSessions env s).length
      · have hemit : emitOf env sid = some [{ s with messages := _searchSessions env s }] := by
          simp [emitOf, hs, hlen]
        by_cases hcap : 50 ≤ total + (_searchSessions env s).length
        · simp only [searchLoop, hs, hlen, hcap, if_true]
          rw [List.filterMap_cons_some hemit]
          rfl
        · simp only [searchLoop, hs, hlen, hcap, if_true, if_false]
          rw [List.filterMap_cons_some hemit, emitBatch_singleton]
          rw [ih (total + (_searchSessions env s).length)]
          rfl
      · have hemit : emitOf env sid = none := by
          simp [emitOf, hs, hlen]
        by_cases hcap : 50 ≤ total
        · simp only [searchLoop, hs, hlen, hcap, if_true, if_false]
          rw [List.filterMap_cons_none hemit]
          rfl
        · simp only [searchLoop, hs, hlen, hcap, if_false]
          rw [List.filterMap_cons_none hemit]
          exact ih total

theorem searchLoop_scanned_initial (env : SearchEnv) :
    ∀ (ids : List String) (total : Nat), (searchLoop env ids total).2 <+: ids := by
  intro ids
  induction ids with
  | nil => intro total; simp [searchLoop]
  | cons sid rest ih =>
    intro total
    cases hs : env.getSession sid with
    | none =>
      simp only [searchLoop, hs]
      exact List.cons_prefix_cons.mpr ⟨rfl, ih total⟩
    | some s =>
      by_cases hlen : 0 < (_searchSessions env s).length
      · by_cases hcap : 50 ≤ total + (_searchSessions env s).length
        · simp only [searchLoop, hs, hlen, hcap, if_true]
          exact List.cons_prefix_cons.mpr ⟨rfl, List.nil_prefix⟩
        · simp only [searchLoop, hs, hlen, hcap, if_true, if_false]
          exact List.cons_prefix_cons.mpr ⟨rfl, ih _⟩
      · by_cases hcap : 50 ≤ total
        · simp only [searchLoop, hs, hlen, hcap, if_true, if_false]
          exact List.cons_prefix_cons.mpr ⟨rfl, List.nil_prefix⟩
        · simp only [searchLoop, hs, hlen, hcap, if_false]
          exact List.cons_prefix_cons.mpr ⟨rfl, ih _⟩

theorem searchLoop_scan_guard (env : SearchEnv) :
    ∀ (ids : List String) (total : Nat), total < 50 →
      ∀ j, j < (searchLoop env ids total).2.length →
        total + sumMatch env ((searchLoop env ids total).2.take j) < 50 := by
  intro ids
  induction ids with
  | nil =>
    intro total ht j hj
    simp [searchLoop] at hj
  | cons sid rest ih =>
    intro total ht j hj
    cases hs : env.getSession sid with
    | none =>
      simp only [searchLoop, hs] at hj ⊢
      cases j with
      | zero => simpa [sumMatch] using ht
      | succ j =>
        simp only [List.length_cons, Nat.succ_lt_succ_iff] at hj
        have h0 : matchCount env sid = 0 := by simp [matchCount, hs]
        rw [List.take_succ_cons, sumMatch_cons, h0]
        have := ih total ht j hj
        omega
    | some s =>
      by_cases hlen : 0 < (_searchSessions env s).length
      · by_cases hcap : 50 ≤ total + (_searchSessions env s).length
        · simp only [searchLoop, hs, hlen, hcap, if_true] at hj ⊢
          simp only [List.length_cons, List.length_nil] at hj
          have hj0 : j = 0 := by omega
          subst hj0
          simpa [sumMatch] using ht
        · simp only [searchLoop, hs, hlen, hcap, if_true, if_false] at hj ⊢
          cases j with
          | zero => simpa [sumMatch] using ht
          | succ j =>
            simp only [List.length_cons, Nat.succ_lt_succ_iff] at hj
            have h0 : matchCount env sid = (_searchSessions env s).length := by
              simp [matchCount, hs]
            rw [List.take_succ_cons, sumMatch_cons, h0]
            have := ih (total + (_searchSessions env s).length) (by omega) j hj
            omega
      · by_cases hcap : 50 ≤ total
        · omega
        · simp only [searchLoop, hs, hlen, hcap, if_false] at hj ⊢
          cases j with
          | zero => simpa [sumMatch] using ht
          | succ j =>
            simp only [List.length_cons, Nat.succ_lt_succ_iff] at hj
            have h0 : matchCount env sid = 0 := by
              simp only [matchCount, hs]
              omega
            rw [List.take_succ_cons, sumMatch_cons, h0]
            have := ih total ht j hj
            omega

theorem searchLoop_emit_cap (env : SearchEnv) :
    ∀ (ids : List String) (total : Nat), total < 50 →
      ∀ k, k < (searchLoop env ids total).1.length →
        total + emittedSizes ((searchLoop env ids total).1.take k) < 50 := by
  intro ids
  induction ids with
  | nil =>
    intro total ht k hk
    simp [searchLoop] at hk
  | cons sid rest ih =>
    intro total ht k hk
    cases hs : env.getSession sid with
    | none =>
      simp only [searchLoop, hs] at hk ⊢
      exact ih total ht k hk
    | some s =>
      by_cases hlen : 0 < (_searchSessions env s).length
      · by_cases hcap : 50 ≤ total + (_searchSessions env s).length
        · simp only [searchLoop, hs, hlen, hcap, if_true, emitBatch_singleton] at hk ⊢
          simp only [List.length_cons, List.length_nil] at hk
          have hk0 : k = 0 := by omega
          subst hk0
          simpa [emittedSizes] using ht
        · simp only [searchLoop, hs, hlen, hcap, if_true, if_false,
            emitBatch_singleton] at hk ⊢
          cases k with
          | zero => simpa [emittedSizes] using ht
          | succ k =>
            simp only [List.length_cons, List.length_append, Nat.succ_lt_succ_iff,
              List.singleton_append] at hk ⊢
            rw [List.take_succ_cons, emittedSizes_cons]
            have hsz : (([{ s with messages := _searchSessions env s }] : List Session).map
                (fun t => t.messages.length)).sum = (_searchSessions env s).length := by
              simp
            rw [hsz]
            have := ih (total + (_searchSessions env s).length) (by omega) k hk
            omega
      · by_cases hcap : 50 ≤ total
        · omega
        · simp only [searchLoop, hs, hlen, hcap, if_false] at hk ⊢
          exact ih total ht k hk

/-- C5: in a multi-session search, every batch is emitted while the
cumulative count of already-emitted matched messages is still below 50, and
every session is scanned while that cumulative count is still below 50
(reaching the cap stops both scanning and emission); each emitted batch
carries the complete match list of its session; every scanned session with
at least one match — in particular the session whose matches make the
total reach or cross 50, which is by definition scanned — has its complete
batch among the emitted batches, so the cap never drops or truncates the
crossing session; and with an explicit session id the cap is not enforced:
the session's full match list is emitted whatever its size. -/
theorem searchSessions_cap (env : SearchEnv) (ids : List String) :
    (∀ k, k < (searchSessions env none ids).length →
        emittedSizes ((searchSessions env none ids).take k) < 50)
    ∧ (∀ j, j < (searchLoop env ids 0).2.length →
        sumMatch env ((searchLoop env ids 0).2.take j) < 50)
    ∧ (∀ b ∈ searchSessions env none ids, ∃ sid s, sid ∈ ids
        ∧ env.getSession sid = some s
        ∧ b = [{ s with messages := _searchSessions env s }])
    ∧ (∀ sid s, sid ∈ (searchLoop env ids 0).2 → env.getSession sid = some s →
        0 < (_searchSessions env s).length →
        [{ s with messages := _searchSessions env s }] ∈ searchSessions env none ids)
    ∧ (∀ sid s, env.getSession sid = some s →
        searchSessions env (some sid) ids
          = [[{ s with messages := _searchSessions env s }]]) := by
  refine ⟨?_, ?_, ?_, ?_, ?_⟩
  · intro k hk
    have h2 := searchLoop_emit_cap env ids 0 (by omega) k hk
    rw [Nat.zero_add] at h2
    exact h2
  · intro j hj
    have h2 := searchLoop_scan_guard env ids 0 (by omega) j hj
    rw [Nat.zero_add] at h2
    exact h2
  · intro b hb
    have hb' : b ∈ (searchLoop env ids 0).2.filterMap (emitOf env) := by
      rw [← searchLoop_batches env ids 0]
      exact hb
    obtain ⟨sid, hsid, hemit⟩ := List.mem_filterMap.mp hb'
    have hsid' : sid ∈ ids := (searchLoop_scanned_initial env ids 0).subset hsid
    unfold emitOf at hemit
    cases hs : env.getSession sid with
    | none =>
      rw [hs] at hemit
      simp at hemit
    | some s =>
      rw [hs] at hemit
      by_cases hlen : 0 < (_searchSessions env s).length
      · simp only [hlen, if_true, Option.some.injEq] at hemit
        exact ⟨sid, s, hsid', hs, hemit.symm⟩
      · simp [hlen] at hemit
  · intro sid s hsid hs hlen
    have hbs : searchSessions env none ids
        = (searchLoop env ids 0).2.filterMap (emitOf env) :=
      searchLoop_batches env ids 0
    rw [hbs]
    refine List.mem_filterMap.mpr ⟨sid, hsid, ?_⟩
    simp [emitOf, hs, hlen]
  · intro sid s hs
    simp only [searchSessions]
    rw [hs]
    rfl

/-- Witness for C5: sessionTwo is scanned with matches, so its complete
batch is among the emitted batches of the multi-session search, and the
explicit-session path emits its complete match list with no cap check. -/
theorem searchSessions_cap_witness :
    [{ sessionTwo with messages := _searchSessions searchEnvW sessionTwo }]
      ∈ searchSessions searchEnvW none ["s1", "s2", "s3"]
    ∧ searchSessions searchEnvW (some "s2") ["s1", "s2", "s3"]
      = [[{ sessionTwo with messages := _searchSessions searchEnvW sessionTwo }]] :=
  ⟨(searchSessions_cap searchEnvW ["s1", "s2", "s3"]).2.2.2.1 "s2" sessionTwo
      (by decide) (by decide) (by decide),
   (searchSessions_cap searchEnvW ["s1", "s2", "s3"]).2.2.2.2 "s2" sessionTwo (by decide)⟩

/-- C7: in a multi-session search the emitted batches are exactly, in scan
order, one single-element batch per scanned session with at least one
match (zero-match sessions emit nothing); the batch's element is a shallow
copy of the session whose `messages` field holds only the matching
messages; the match list is the live messages most recent first followed by
the archived threads most recent first; and the number of emitted batches
equals the number of scanned sessions with matches, so a query matching a
single session yields exactly one batch. -/
theorem searchSessions_per_session_emission (env : SearchEnv) (ids : List String) :
    searchSessions env none ids = (searchLoop env ids 0).2.filterMap (emitOf env)
    ∧ (∀ b ∈ searchSessions env none ids, ∃ sid s, sid ∈ ids
        ∧ env.getSession sid = some s
        ∧ 0 < (_searchSessions env s).length
        ∧ b = [{ s with messages := _searchSessions env s }])
    ∧ (∀ s, _searchSessions env s
        = (((env.migrateSession s).messages.reverse.filter (msgMatches env))
            ++ ((env.migrateSession s).threads.getD []).reverse.flatMap
                (fun t => t.messages.reverse.filter (msgMatches env))).map
              env.migrateMessage)
    ∧ (searchSessions env none ids).length
        = ((searchLoop env ids 0).2.filter (fun sid => (emitOf env sid).isSome)).length := by
  refine ⟨searchLoop_batches env ids 0, ?_, ?_, ?_⟩
  · intro b hb
    have hb' : b ∈ (searchLoop env ids 0).2.filterMap (emitOf env) := by
      rw [← searchLoop_batches env ids 0]
      exact hb
    obtain ⟨sid, hsid, hemit⟩ := List.mem_filterMap.mp hb'
    have hsid' : sid ∈ ids := (searchLoop_scanned_initial env ids 0).subset hsid
    unfold emitOf at hemit
    cases hs : env.getSession sid with
    | none =>
      rw [hs] at hemit
      simp at hemit
    | some s =>
      rw [hs] at hemit
      by_cases hlen : 0 < (_searchSessions env s).length
      · simp only [hlen, if_true, Option.some.injEq] at hemit
        exact ⟨sid, s, hsid', hs, hlen, hemit.symm⟩
      · simp [hlen] at hemit
  · intro s
    simp only [_searchSessions]
    rw [scanDown_eq_filter_reverse, scanThreads_eq_flatMap]
  · have hbs : searchSessions env none ids
        = (searchLoop env ids 0).2.filterMap (emitOf env) :=
      searchLoop_batches env ids 0
    rw [hbs]
    exact length_filterMap_eq_length_filter (emitOf env) (searchLoop env ids 0).2

/-- Witness for C7 (scenario D): across three sessions where only the
second has matching messages, exactly one batch is emitted. -/
theorem searchSessions_per_session_emission_witness :
    (searchSessions searchEnvW none ["s1", "s2", "s3"]).length = 1 := by
  rw [(searchSessions_per_session_emission searchEnvW ["s1", "s2", "s3"]).2.2.2]
  decide

/-- C10: with an explicit session id that exists in the store, exactly one
batch is always emitted — also when zero messages match, in which case the
emitted session copy has an empty message list — whereas on the
multi-session path every emitted batch belongs to a session with a
non-empty match list. -/
theorem searchSessions_explicit_id_emits (env : SearchEnv) (sid : String) (s : Session)
    (h : env.getSession sid = some s) (ids : List String) :
    searchSessions env (some sid) ids = [[{ s with messages := _searchSessions env s }]]
    ∧ (_searchSessions env s = [] →
        searchSessions env (some sid) ids = [[{ s with messages := [] }]])
    ∧ (∀ b ∈ searchSessions env none ids, ∃ t, b = [t] ∧ t.messages ≠ []) := by
  have h1 : searchSessions env (some sid) ids
      = [[{ s with messages := _searchSessions env s }]] := by
    simp only [searchSessions]
    rw [h]
    rfl
  refine ⟨h1, ?_, ?_⟩
  · intro hnil
    rw [h1, hnil]
  · intro b hb
    have hb' : b ∈ (searchLoop env ids 0).2.filterMap (emitOf env) := by
      rw [← searchLoop_batches env ids 0]
      exact hb
    obtain ⟨sid', hsid, hemit⟩ := List.mem_filterMap.mp hb'
    unfold emitOf at hemit
    cases hs : env.getSession sid' with
    | none =>
      rw [hs] at hemit
      simp at hemit
    | some s' =>
      rw [hs] at hemit
      by_cases hlen : 0 < (_searchSessions env s').length
      · simp only [hlen, if_true, Option.some.injEq] at hemit
        refine ⟨{ s' with messages := _searchSessions env s' }, hemit.symm, ?_⟩
        intro hnil
        have hnil' : (_searchSessions env s') = [] := hnil
        rw [hnil'] at hlen
        simp at hlen
      · simp [hlen] at hemit

/-- Witness for C10: an explicit id whose session has zero matching
messages still emits exactly one batch, with an empty message list. -/
theorem searchSessions_explicit_id_emits_witness :
    searchSessions searchEnvW (some "s1") ["s1", "s2", "s3"]
      = [[{ sessionOne with messages := [] }]] :=
  (searchSessions_explicit_id_emits searchEnvW "s1" sessionOne (by decide)
    ["s1", "s2", "s3"]).2.1 (by decide)

end Chatbox

